import Mathlib

/-!
Shallow embedding of the dxvk-cache-tool repository (a merger for DXVK
shader-pipeline state-cache files) and proofs about its specification.

Source files embedded: `src/dxvk.rs` (library cache type), `src/util.rs`
(`ReadEx::read_u32`), `src/error.rs` (error kinds), `src/main.rs` (the
standalone binary with its own duplicated reader/writer).  Byte streams are
`List Nat`; machine integers are `Nat` with explicit `% 2 ^ w`; fallible
reads return `Option`; Rust panics (unsigned-subtraction overflow) are an
explicit `Outcome.panicked` result.  The `sha1` crate is external to the
repository; it is modelled by an executable SHA-1 over byte lists, and the
crate's incremental hasher by a structure accumulating its input bytes.
-/

set_option maxRecDepth 4096

namespace DxvkCacheTool

/-- Little-endian value of a byte list (each byte reduced mod 256),
as `u32::from_le_bytes` / the hand-rolled shifts in `main.rs` compute it. -/
def decodeLE : List Nat → Nat
  | [] => 0
  | b :: bs => b % 256 + 256 * decodeLE bs

/-- `u32::to_le_bytes`. -/
def u32le (n : Nat) : List Nat :=
  [n % 256, n / 256 % 256, n / 65536 % 256, n / 16777216 % 256]

/-- `WriteEx::write_u24` in `main.rs`: the low three little-endian bytes. -/
def u24le (n : Nat) : List Nat :=
  [n % 256, n / 256 % 256, n / 65536 % 256]

/-- `Read::read_exact` over a byte-list stream: succeeds only when `n`
bytes remain, returning them and the rest of the stream. -/
def readExact (n : Nat) (s : List Nat) : Option (List Nat × List Nat) :=
  if n ≤ s.length then some (s.take n, s.drop n) else none

/-! ## SHA-1 (model of the external `sha1` crate) -/

/-- Rotate a 32-bit word left by `k`. -/
def rotl32 (k w : Nat) : Nat :=
  (w % 4294967296) * 2 ^ k % 4294967296 + (w % 4294967296) / 2 ^ (32 - k)

/-- The SHA-1 round function. -/
def sha1F (i b c d : Nat) : Nat :=
  if i < 20 then (b &&& c) ||| ((4294967295 - b) &&& d)
  else if i < 40 then b ^^^ c ^^^ d
  else if i < 60 then (b &&& c) ||| (b &&& d) ||| (c &&& d)
  else b ^^^ c ^^^ d

/-- The SHA-1 round constants. -/
def sha1K (i : Nat) : Nat :=
  if i < 20 then 0x5A827999
  else if i < 40 then 0x6ED9EBA1
  else if i < 60 then 0x8F1BBCDC
  else 0xCA62C1D6

/-- Big-endian 32-bit words of a chunk. -/
def toWordsBE : List Nat → List Nat
  | b0 :: b1 :: b2 :: b3 :: rest =>
    ((b0 % 256) * 16777216 + (b1 % 256) * 65536 + (b2 % 256) * 256 + b3 % 256)
      :: toWordsBE rest
  | _ => []

/-- Extend the message schedule; `acc` holds the words produced so far,
most recent first. -/
def sha1ExtendAux : Nat → List Nat → List Nat
  | 0, acc => acc.reverse
  | n + 1, acc =>
    let w := rotl32 1 ((acc.get! 2 ^^^ acc.get! 7) ^^^ (acc.get! 13 ^^^ acc.get! 15))
    sha1ExtendAux n (w :: acc)

/-- The 80-word message schedule of one chunk. -/
def sha1Extend (ws : List Nat) : List Nat :=
  sha1ExtendAux 64 ws.reverse

/-- The 80 rounds of SHA-1 over the schedule `ws`, starting at round `i`. -/
def sha1RoundsAux : Nat → List Nat → Nat × Nat × Nat × Nat × Nat → Nat × Nat × Nat × Nat × Nat
  | _, [], st => st
  | i, w :: ws, (a, b, c, d, e) =>
    let t := (rotl32 5 a + sha1F i b c d + e + sha1K i + w) % 4294967296
    sha1RoundsAux (i + 1) ws (t, a, rotl32 30 b, c, d)

/-- Compress one 64-byte chunk into the running state. -/
def sha1Compress (h : Nat × Nat × Nat × Nat × Nat) (chunk : List Nat) :
    Nat × Nat × Nat × Nat × Nat :=
  let ws := sha1Extend (toWordsBE chunk)
  let (a0, b0, c0, d0, e0) := h
  let (a, b, c, d, e) := sha1RoundsAux 0 ws (a0, b0, c0, d0, e0)
  ((a0 + a) % 4294967296, (b0 + b) % 4294967296, (c0 + c) % 4294967296,
    (d0 + d) % 4294967296, (e0 + e) % 4294967296)

/-- Process all 64-byte chunks (fuel-indexed; the fuel passed by `sha1Bytes`
always suffices). -/
def sha1ChunksAux : Nat → (Nat × Nat × Nat × Nat × Nat) → List Nat → Nat × Nat × Nat × Nat × Nat
  | 0, h, _ => h
  | _ + 1, h, [] => h
  | n + 1, h, bs => sha1ChunksAux n (sha1Compress h (bs.take 64)) (bs.drop 64)

/-- Merkle–Damgård padding: append `0x80`, zero bytes to 56 mod 64, then the
bit length as 8 big-endian bytes. -/
def sha1Pad (msg : List Nat) : List Nat :=
  let l := msg.length
  let n := 8 * l
  msg.map (· % 256) ++ [128] ++ List.replicate ((119 - l % 64) % 64) 0 ++
    [n / 2 ^ 56 % 256, n / 2 ^ 48 % 256, n / 2 ^ 40 % 256, n / 2 ^ 32 % 256,
     n / 16777216 % 256, n / 65536 % 256, n / 256 % 256, n % 256]

/-- Big-endian bytes of a 32-bit word. -/
def be32 (n : Nat) : List Nat :=
  [n / 16777216 % 256, n / 65536 % 256, n / 256 % 256, n % 256]

/-- The 20-byte SHA-1 digest of a byte list. -/
def sha1Bytes (msg : List Nat) : List Nat :=
  let padded := sha1Pad msg
  let st := sha1ChunksAux (padded.length / 64 + 1)
    (0x67452301, 0xEFCDAB89, 0x98BADCFE, 0x10325476, 0xC3D2E1F0) padded
  be32 st.1 ++ be32 st.2.1 ++ be32 st.2.2.1 ++ be32 st.2.2.2.1 ++ be32 st.2.2.2.2

/-- Model of the `sha1` crate hasher: the state is the bytes fed so far. -/
structure Sha1 where
  acc : List Nat
deriving DecidableEq, Repr

/-- `Sha1::default()`. -/
def Sha1.default : Sha1 := ⟨[]⟩

/-- `Sha1::update`. -/
def Sha1.update (h : Sha1) (bs : List Nat) : Sha1 := ⟨h.acc ++ bs⟩

/-- `Sha1::digest().bytes()`. -/
def Sha1.digestBytes (h : Sha1) : List Nat := sha1Bytes h.acc

/-! ## Constants of `src/dxvk.rs` / `src/main.rs` -/

/-- `HASH_SIZE`. -/
def HASH_SIZE : Nat := 20

/-- `LEGACY_VERSION` (`dxvk.rs`). -/
def LEGACY_VERSION : Nat := 7

/-- `MAGIC_STRING = *b"DXVK"`. -/
def MAGIC_STRING : List Nat := [68, 88, 86, 75]

/-- `SHA1_EMPTY`: the SHA-1 digest of the empty input, used as the legacy
sentinel block. -/
def SHA1_EMPTY : List Nat :=
  [218, 57, 163, 238, 94, 107, 75, 13, 50, 85, 191, 239, 149, 96, 24, 144,
   175, 216, 7, 9]

/-! ## Error model (`src/error.rs`) and run outcomes -/

/-- The one `std::io::ErrorKind` the embedded streams can produce. -/
inductive IoKind where
  | unexpectedEof
deriving DecidableEq, Repr

/-- `ErrorKind` of `src/error.rs` (and the identical one in `src/main.rs`). -/
inductive ErrorKind where
  | ioError (k : IoKind)
  | invalidInput
  | invalidData
deriving DecidableEq, Repr

/-- Result of running a fallible operation of the program.  `panicked`
models a Rust panic (here: usize-subtraction overflow); `diverged` is the
out-of-fuel marker of the loop embeddings, proved unreachable for the fuel
the program functions pass. -/
inductive Outcome (α : Type) where
  | ok (a : α)
  | error (kind : ErrorKind) (msg : String)
  | panicked
  | diverged
deriving DecidableEq, Repr

/-- Result of reading one entry from a stream. -/
inductive ReadRes (α : Type) where
  | ok (a : α)
  | eof
  | panicked
deriving DecidableEq, Repr

/-! ## `src/dxvk.rs`: data model -/

/-- `DxvkStateCacheHeader`. -/
structure DxvkStateCacheHeader where
  magic : List Nat
  version : Nat
  entry_size : Nat
deriving DecidableEq, Repr

/-- `DxvkStateCacheEntryHeader`: stage mask plus the 3 raw bytes of the
24-bit entry size (field `entry_size` in the source). -/
structure DxvkStateCacheEntryHeader where
  stage_mask : Nat
  entry_size_bytes : List Nat
deriving DecidableEq, Repr

/-- `DxvkStateCacheEntryHeader::new`: split a little-endian `u32` into the
low stage-mask byte and the three size bytes. -/
def DxvkStateCacheEntryHeader.new (n : Nat) : DxvkStateCacheEntryHeader :=
  { stage_mask := n % 256,
    entry_size_bytes := [n / 256 % 256, n / 65536 % 256, n / 16777216 % 256] }

/-- `DxvkStateCacheEntryHeader::entry_size`:
`u32::from_le_bytes([b0, b1, b2, 0])`. -/
def DxvkStateCacheEntryHeader.entry_size (h : DxvkStateCacheEntryHeader) : Nat :=
  decodeLE h.entry_size_bytes

/-- `DxvkStateCacheEntry`. -/
structure DxvkStateCacheEntry where
  header : Option DxvkStateCacheEntryHeader
  hash : List Nat
  data : List Nat
deriving DecidableEq, Repr

/-- `DxvkStateCacheEntry::with_length`.  `vec![0; length - HASH_SIZE]`
panics (usize-subtraction overflow) when `length < HASH_SIZE`; that panic
is the `none` result. -/
def DxvkStateCacheEntry.with_length (length : Nat) : Option DxvkStateCacheEntry :=
  if length < HASH_SIZE then none
  else some { header := none, hash := List.replicate HASH_SIZE 0,
              data := List.replicate (length - HASH_SIZE) 0 }

/-- `DxvkStateCacheEntry::with_header`. -/
def DxvkStateCacheEntry.with_header (h : DxvkStateCacheEntryHeader) : DxvkStateCacheEntry :=
  { header := some h, hash := List.replicate HASH_SIZE 0,
    data := List.replicate h.entry_size 0 }

/-- `DxvkStateCacheEntry::is_valid`: hash the data, hash the `SHA1_EMPTY`
sentinel too when there is no per-entry header, compare to the stored hash. -/
def DxvkStateCacheEntry.is_valid (e : DxvkStateCacheEntry) : Bool :=
  let hasher := Sha1.default.update e.data
  let hasher := if e.header.isNone then hasher.update SHA1_EMPTY else hasher
  hasher.digestBytes == e.hash

/-- The entry store: `LinkedHashMap<Sha1Hash, DxvkStateCacheEntry>` as an
insertion-ordered association list with unique keys. -/
abbrev Entries := List (List Nat × DxvkStateCacheEntry)

/-- `LinkedHashMap::insert`: a present key has its value overwritten and
its node detached and re-attached at the back of the iteration order; an
absent key is attached at the back. -/
def lhmInsert {α β : Type} [DecidableEq α] (l : List (α × β)) (k : α) (v : β) :
    List (α × β) :=
  if k ∈ l.map Prod.fst then (l.filter fun p => decide (p.1 ≠ k)) ++ [(k, v)]
  else l ++ [(k, v)]

/-- `LinkedHashMap::extend`: insert every pair of `l2`, in order. -/
def extendEntries {α β : Type} [DecidableEq α] (l1 l2 : List (α × β)) :
    List (α × β) :=
  l2.foldl (fun acc p => lhmInsert acc p.1 p.2) l1

/-- First value stored under a key. -/
def lookupKey {α β : Type} [DecidableEq α] (k : α) : List (α × β) → Option β
  | [] => none
  | p :: l => if p.1 = k then some p.2 else lookupKey k l

/-- The keys of `l2keys` that are not already among `l1keys`, in order. -/
def freshKeys {α : Type} [DecidableEq α] (l1keys l2keys : List α) : List α :=
  l2keys.filter fun k => decide (k ∉ l1keys)

/-- The pairs of `l` whose key is not among `ks`, in order. -/
def keepKeys {α β : Type} [DecidableEq α] (l : List (α × β)) (ks : List α) :
    List (α × β) :=
  l.filter fun p => decide (p.1 ∉ ks)

/-- `DxvkStateCache`. -/
structure DxvkStateCache where
  header : DxvkStateCacheHeader
  entries : Entries
deriving DecidableEq, Repr

/-! ## `src/dxvk.rs`: open / save / extend -/

/-- `util.rs` `ReadEx::read_u32`: `read_exact` four bytes, decode
little-endian. -/
def read_u32 (s : List Nat) : Option (Nat × List Nat) :=
  match readExact 4 s with
  | some (bs, rest) => some (decodeLE bs, rest)
  | none => none

/-- The reads of the nested `read_entry` of `DxvkStateCache::open` (modern
layout): a `u32` split into stage mask and 24-bit size, then the hash, then
the payload of that size; `none` is an `UnexpectedEof`. -/
def read_entry0 (s : List Nat) : Option (DxvkStateCacheEntry × List Nat) :=
  (read_u32 s).bind fun p =>
    (readExact HASH_SIZE p.2).bind fun q =>
      (readExact (DxvkStateCacheEntryHeader.new p.1).entry_size q.2).bind fun r =>
        some ({ header := some (DxvkStateCacheEntryHeader.new p.1),
                hash := q.1, data := r.1 }, r.2)

/-- The nested `read_entry` of `DxvkStateCache::open`. -/
def read_entry (s : List Nat) : ReadRes (DxvkStateCacheEntry × List Nat) :=
  match read_entry0 s with
  | some x => .ok x
  | none => .eof

/-- The reads of the nested `read_entry_v7` of `DxvkStateCache::open`
(legacy layout): the payload of `size - 20` bytes, then the trailing
hash. -/
def read_entry_v70 (s : List Nat) (size : Nat) : Option (DxvkStateCacheEntry × List Nat) :=
  (readExact (size - HASH_SIZE) s).bind fun p =>
    (readExact HASH_SIZE p.2).bind fun q =>
      some ({ header := none, hash := q.1, data := p.1 }, q.2)

/-- The nested `read_entry_v7` of `DxvkStateCache::open`: `with_length size`
first (panics when `size < 20`), then the two reads. -/
def read_entry_v7 (s : List Nat) (size : Nat) : ReadRes (DxvkStateCacheEntry × List Nat) :=
  match DxvkStateCacheEntry.with_length size with
  | none => .panicked
  | some _ =>
    match read_entry_v70 s size with
    | some x => .ok x
    | none => .eof

/-- One iteration of the read loop of `DxvkStateCache::open`: layout chosen
by `header.version > LEGACY_VERSION`. -/
def openStep (version entry_size : Nat) (s : List Nat) :
    ReadRes (DxvkStateCacheEntry × List Nat) :=
  if version > LEGACY_VERSION then read_entry s else read_entry_v7 s entry_size

/-- The read loop of `DxvkStateCache::open`: read entries until a read hits
end-of-stream (any `UnexpectedEof` breaks the loop), inserting each entry
that passes `is_valid`. -/
def openLoop (version entry_size : Nat) : Nat → List Nat → Entries → Outcome Entries
  | 0, _, _ => .diverged
  | fuel + 1, s, acc =>
    match openStep version entry_size s with
    | .eof => .ok acc
    | .panicked => .panicked
    | .ok (e, rest) =>
      openLoop version entry_size fuel rest
        (if e.is_valid then lhmInsert acc e.hash e else acc)

/-- `DxvkStateCache::open` on the bytes of the file: read the 12-byte
header, reject a bad magic, then run the entry loop. -/
def DxvkStateCache.openCache (s : List Nat) : Outcome DxvkStateCache :=
  match read_u32 s with
  | none => .error (.ioError .unexpectedEof) "failed to fill whole buffer"
  | some (m, s1) =>
    match read_u32 s1 with
    | none => .error (.ioError .unexpectedEof) "failed to fill whole buffer"
    | some (v, s2) =>
      match read_u32 s2 with
      | none => .error (.ioError .unexpectedEof) "failed to fill whole buffer"
      | some (es, s3) =>
        let header : DxvkStateCacheHeader :=
          { magic := u32le m, version := v, entry_size := es }
        if header.magic ≠ MAGIC_STRING then
          .error .invalidData "Magic string mismatch"
        else
          match openLoop header.version header.entry_size (s3.length + 1) s3 [] with
          | .ok entries => .ok { header := header, entries := entries }
          | .error k msg => .error k msg
          | .panicked => .panicked
          | .diverged => .diverged

/-- The bytes `DxvkStateCache::save` writes for one entry: sub-header, hash
and payload for an entry with a header; payload then hash otherwise. -/
def encodeEntry (e : DxvkStateCacheEntry) : List Nat :=
  match e.header with
  | some h => [h.stage_mask] ++ h.entry_size_bytes ++ e.hash ++ e.data
  | none => e.data ++ e.hash

/-- `DxvkStateCache::save` as the byte stream it writes. -/
def DxvkStateCache.save (c : DxvkStateCache) : List Nat :=
  c.header.magic ++ u32le c.header.version ++ u32le c.header.entry_size ++
    (c.entries.map fun p => encodeEntry p.2).flatten

/-- `DxvkStateCache::extend`: reject a version mismatch before touching the
entries (the second component is the state of the receiver afterwards),
otherwise merge and return the size delta. -/
def DxvkStateCache.extend (self other : DxvkStateCache) : Outcome Nat × DxvkStateCache :=
  if self.header.version ≠ other.header.version then
    (.error .invalidInput
      ("State cache version mismatch: expected v" ++ toString self.header.version ++
        ", found v" ++ toString other.header.version), self)
  else
    let es := extendEntries self.entries other.entries
    (.ok (es.length - self.entries.length), { self with entries := es })

/-! ## `src/main.rs`: the standalone binary's own reader/writer

`main.rs` duplicates the data model and byte codec.  Its `ReadEx` uses
`Read::read` (not `read_exact`) into a zero-initialised buffer, so at
end-of-stream the integer readers return the zero-padded value instead of
failing. -/

namespace MainApp

/-- `Read::read` into a zero-initialised `n`-byte buffer: takes
`min n s.length` bytes, leaves the rest of the buffer zero. -/
def readN (n : Nat) (s : List Nat) : List Nat × List Nat :=
  (s.take n ++ List.replicate (n - s.length) 0, s.drop n)

/-- `main.rs` `ReadEx::read_u32` (never fails; zero-pads at EOF). -/
def read_u32 (s : List Nat) : Nat × List Nat :=
  let r := readN 4 s
  (decodeLE r.1, r.2)

/-- `main.rs` `ReadEx::read_u24`. -/
def read_u24 (s : List Nat) : Nat × List Nat :=
  let r := readN 3 s
  (decodeLE r.1, r.2)

/-- `main.rs` `ReadEx::read_u8`. -/
def read_u8 (s : List Nat) : Nat × List Nat :=
  let r := readN 1 s
  (decodeLE r.1, r.2)

/-- `main.rs` `DxvkStateCacheHeader`. -/
structure Header where
  magic : List Nat
  version : Nat
  entry_size : Nat
deriving DecidableEq, Repr

/-- `main.rs` `DxvkStateCacheEntryHeader` (here `entry_size` is a plain
`u32`). -/
structure EntryHeader where
  stage_mask : Nat
  entry_size : Nat
deriving DecidableEq, Repr

/-- `main.rs` `DxvkStateCacheEntry`. -/
structure Entry where
  header : Option EntryHeader
  hash : List Nat
  data : List Nat
deriving DecidableEq, Repr

/-- `main.rs` `DxvkStateCacheEntry::is_valid` (same rule as `dxvk.rs`). -/
def Entry.is_valid (e : Entry) : Bool :=
  let hasher := Sha1.default.update e.data
  let hasher := if e.header.isNone then hasher.update SHA1_EMPTY else hasher
  hasher.digestBytes == e.hash

/-- The merge accumulator `LinkedHashMap<Sha1Hash, DxvkStateCacheEntry>`. -/
abbrev Entries := List (List Nat × Entry)

/-- The relevant fields of `main.rs` `Config` (`version = 0` means "no
source version detected yet"); the output path and file list are CLI glue
handled outside the model. -/
structure Config where
  version : Nat
  entry_size : Nat
  legacy : Bool
deriving DecidableEq, Repr

/-- An input file: its extension and its bytes (paths are CLI glue). -/
structure InputFile where
  ext : String
  bytes : List Nat
deriving DecidableEq, Repr

/-- `main.rs` `read_header`: `read_exact` the 4 magic bytes, then the two
zero-padding `u32` reads. -/
def read_header (s : List Nat) : Option (Header × List Nat) :=
  match readExact 4 s with
  | none => none
  | some (magic, s1) =>
    let v := read_u32 s1
    let es := read_u32 v.2
    some ({ magic := magic, version := v.1, entry_size := es.1 }, es.2)

/-- `main.rs` `read_entry` (modern layout): `u8` stage mask and `u24` size
(both zero-padding), then `read_exact` hash and payload. -/
def read_entry (s : List Nat) : ReadRes (Entry × List Nat) :=
  let sm := read_u8 s
  let sz := read_u24 sm.2
  let hdr : EntryHeader := { stage_mask := sm.1, entry_size := sz.1 }
  match readExact HASH_SIZE sz.2 with
  | none => .eof
  | some (hash, s1) =>
    match readExact hdr.entry_size s1 with
    | none => .eof
    | some (data, s2) => .ok ({ header := some hdr, hash := hash, data := data }, s2)

/-- `main.rs` `read_entry_legacy`: payload of `size` bytes then trailing
hash (the `entry_size - HASH_SIZE` subtraction happens at the call site). -/
def read_entry_legacy (s : List Nat) (size : Nat) : ReadRes (Entry × List Nat) :=
  match readExact size s with
  | none => .eof
  | some (data, s1) =>
    match readExact HASH_SIZE s1 with
    | none => .eof
    | some (hash, s2) => .ok ({ header := none, hash := hash, data := data }, s2)

/-- The per-file entry loop of `main` (lines 260–277): on the legacy path
the call-site subtraction `header.entry_size as usize - HASH_SIZE` panics
when `entry_size < 20`; any `UnexpectedEof` breaks the loop; valid entries
are inserted into the shared map. -/
def mainLoop (legacy : Bool) (entry_size : Nat) : Nat → List Nat → Entries → Outcome Entries
  | 0, _, _ => .diverged
  | fuel + 1, s, entries =>
    let res :=
      if legacy then
        if entry_size < HASH_SIZE then ReadRes.panicked
        else read_entry_legacy s (entry_size - HASH_SIZE)
      else read_entry s
    match res with
    | .eof => .ok entries
    | .panicked => .panicked
    | .ok (e, rest) =>
      mainLoop legacy entry_size fuel rest
        (if e.is_valid then lhmInsert entries e.hash e else entries)

/-- Processing of one input file in the merge loop of `main` (lines
219–279): extension check, header read, magic check, source-version
detection (only while `config.version == 0`), version-mismatch check, then
the entry loop. -/
def processFile (cfg : Config) (entries : Entries) (f : InputFile) :
    Outcome (Config × Entries) :=
  if f.ext ≠ "dxvk-cache" then
    .error .invalidInput "File extension mismatch: expected .dxvk-cache"
  else
    match read_header f.bytes with
    | none => .error (.ioError .unexpectedEof) "failed to fill whole buffer"
    | some (hdr, rest) =>
      if hdr.magic ≠ MAGIC_STRING then .error .invalidData "Magic string mismatch"
      else
        let cfg1 :=
          if cfg.version = 0 then
            { version := hdr.version, entry_size := hdr.entry_size,
              legacy := hdr.version < 8 }
          else cfg
        if hdr.version ≠ cfg1.version then
          .error .invalidInput
            ("State cache version mismatch: expected v" ++ toString hdr.version ++
              ", found v" ++ toString cfg1.version)
        else
          match mainLoop cfg1.legacy hdr.entry_size (rest.length + 1) rest entries with
          | .ok entries1 => .ok (cfg1, entries1)
          | .error k m => .error k m
          | .panicked => .panicked
          | .diverged => .diverged

/-- The whole merge loop of `main` over the input files. -/
def processFiles : Config → Entries → List InputFile → Outcome (Config × Entries)
  | cfg, entries, [] => .ok (cfg, entries)
  | cfg, entries, f :: fs =>
    match processFile cfg entries f with
    | .ok (c, e) => processFiles c e fs
    | .error k m => .error k m
    | .panicked => .panicked
    | .diverged => .diverged

/-- The initial `Config::default()` (version/entry_size/legacy part). -/
def cfg0 : Config := { version := 0, entry_size := 0, legacy := false }

/-- `main.rs` `wrtie_header` (name as in the source): writes the constant
magic and the two `u32` fields. -/
def wrtie_header (h : Header) : List Nat :=
  MAGIC_STRING ++ u32le h.version ++ u32le h.entry_size

/-- `main.rs` `write_state_cache` (modern): optional sub-header, then hash,
then payload, for each entry in order. -/
def write_state_cache (entries : Entries) : List Nat :=
  (entries.map fun p =>
    (match p.2.header with
     | some h => [h.stage_mask % 256] ++ u24le h.entry_size
     | none => []) ++ p.2.hash ++ p.2.data).flatten

/-- `main.rs` `write_state_cache_legacy`: payload then hash. -/
def write_state_cache_legacy (entries : Entries) : List Nat :=
  (entries.map fun p => p.2.data ++ p.2.hash).flatten

/-- `main` after the merge loop (lines 281–308): fail with `InvalidData`
when no valid entries were accumulated (checked before any output is
produced), otherwise write the output file's bytes. -/
def mainRun (files : List InputFile) : Outcome (List Nat) :=
  match processFiles cfg0 [] files with
  | .ok (cfg, entries) =>
    if entries.isEmpty then .error .invalidData "No valid state cache entries found"
    else
      let hdr : Header := { magic := MAGIC_STRING, version := cfg.version,
                            entry_size := cfg.entry_size }
      .ok (wrtie_header hdr ++
        (if cfg.legacy then write_state_cache_legacy entries
         else write_state_cache entries))
  | .error k m => .error k m
  | .panicked => .panicked
  | .diverged => .diverged

end MainApp

/-! ## Version Migrator (spec-modelled) -/

namespace Migrator

/-- Modelled from the spec: the Version Migrator of §4.3 ("Contract:
`convert(entry, from_version, to_version)` ...") is described by the
specification but absent from `src/`; this edit helper follows §4.3's
words: offsets index the payload only, an offset beyond the payload makes
the edit a no-op, and a touched byte that is not 0 or 1 is a fatal
data-corruption assertion (the `none` result). -/
def editInvert (d : List Nat) (off : Nat) : Option (List Nat) :=
  if off < d.length then
    if d.getD off 0 ≤ 1 then some (d.set off (1 - d.getD off 0)) else none
  else some d

/-- Modelled from the spec: force the byte at `off` to `v`, asserting it is
0 or 1 beforehand (no-op beyond the payload). -/
def editForce (d : List Nat) (off v : Nat) : Option (List Nat) :=
  if off < d.length then
    if d.getD off 0 ≤ 1 then some (d.set off v) else none
  else some d

/-- Modelled from the spec: recompute the entry's hash from the mutated
payload, with the legacy sentinel rule of §4.2 when the entry has no
sub-header. -/
def rehash (e : DxvkStateCacheEntry) : DxvkStateCacheEntry :=
  { e with hash := sha1Bytes (e.data ++ if e.header.isNone then SHA1_EMPTY else []) }

/-- Modelled from the spec, §4.3: the v2→v3 step inverts the boolean byte at
payload offset 1204 and forces the byte at offset 1208 to 0, asserting each
touched byte is 0 or 1 beforehand, then recomputes the hash. -/
def stepV2toV3 (e : DxvkStateCacheEntry) : Option DxvkStateCacheEntry :=
  match editInvert e.data 1204 with
  | none => none
  | some d1 =>
    match editForce d1 1208 0 with
    | none => none
    | some d2 => some (rehash { e with data := d2 })

/-- Modelled from the spec, §4.3: the lossy v3→v2 inverse: invert byte 1204;
if the inversion set it to 1, force byte 1208 to 1, else leave it. -/
def stepV3toV2 (e : DxvkStateCacheEntry) : Option DxvkStateCacheEntry :=
  match editInvert e.data 1204 with
  | none => none
  | some d1 =>
    let d2 := if 1204 < d1.length ∧ d1.getD 1204 0 = 1 ∧ 1208 < d1.length
      then d1.set 1208 1 else d1
    some (rehash { e with data := d2 })

/-- Modelled from the spec, §4.3: v3→v4 sets byte 1244 from 0 to 7,
asserting it is 0 beforehand (no-op beyond the payload). -/
def stepV3toV4 (e : DxvkStateCacheEntry) : Option DxvkStateCacheEntry :=
  if 1244 < e.data.length then
    if e.data.getD 1244 0 = 0 then some (rehash { e with data := e.data.set 1244 7 })
    else none
  else some (rehash e)

/-- Modelled from the spec, §4.3: v4→v3 resets byte 1244 from 7 to 0,
asserting it is 7 beforehand (no-op beyond the payload). -/
def stepV4toV3 (e : DxvkStateCacheEntry) : Option DxvkStateCacheEntry :=
  if 1244 < e.data.length then
    if e.data.getD 1244 0 = 7 then some (rehash { e with data := e.data.set 1244 0 })
    else none
  else some (rehash e)

/-- Modelled from the spec, §4.3: the supported single upward step from
version `v`; steps beyond v4 fail fast. -/
def stepUp (v : Nat) (e : DxvkStateCacheEntry) : Option DxvkStateCacheEntry :=
  if v = 2 then stepV2toV3 e else if v = 3 then stepV3toV4 e else none

/-- Modelled from the spec, §4.3: the supported single downward step from
version `v`; steps beyond v4 fail fast. -/
def stepDown (v : Nat) (e : DxvkStateCacheEntry) : Option DxvkStateCacheEntry :=
  if v = 3 then stepV3toV2 e else if v = 4 then stepV4toV3 e else none

/-- Modelled from the spec, §4.3: walk one adjacent-version step at a time
until the target version is reached (`steps` counts the remaining distance). -/
def convertAux : Nat → Nat → Nat → DxvkStateCacheEntry → Option DxvkStateCacheEntry
  | 0, fromV, toV, e => if fromV = toV then some e else none
  | steps + 1, fromV, toV, e =>
    if fromV = toV then some e
    else if fromV < toV then
      match stepUp fromV e with
      | none => none
      | some e1 => convertAux steps (fromV + 1) toV e1
    else
      match stepDown fromV e with
      | none => none
      | some e1 => convertAux steps (fromV - 1) toV e1

/-- Modelled from the spec, §4.3: `convert(entry, from_version, to_version)`. -/
def convert (e : DxvkStateCacheEntry) (fromV toV : Nat) : Option DxvkStateCacheEntry :=
  convertAux (max fromV toV - min fromV toV) fromV toV e

end Migrator

/-! ## Well-formedness of stored entries with respect to a file layout -/

/-- An entry is shaped for the layout of `version` / the header's
`entry_size`: a 20-byte hash; for the modern layout a sub-header with a
real `u8` stage mask, three real size bytes and a payload of the declared
size; for the legacy layout no sub-header and a payload of
`entry_size - 20` bytes. -/
def entryFits (version entry_size : Nat) (e : DxvkStateCacheEntry) : Bool :=
  (e.hash.length == HASH_SIZE) &&
    match e.header with
    | some h =>
      decide (7 < version) && decide (h.stage_mask < 256) &&
        (h.entry_size_bytes.length == 3) &&
        h.entry_size_bytes.all (fun b => decide (b < 256)) &&
        (e.data.length == h.entry_size)
    | none =>
      decide (version ≤ 7) && decide (20 ≤ entry_size) &&
        (e.data.length == entry_size - 20)

/-- The byte stream `save` writes for a list of entries. -/
def encodeAll (l : Entries) : List Nat :=
  (l.map fun p => encodeEntry p.2).flatten

/-! ## Concrete example values used to instantiate the theorems -/

/-- A valid modern entry: empty payload, so its hash is the digest of the
empty input. -/
def entryExample : DxvkStateCacheEntry :=
  { header := some { stage_mask := 3, entry_size_bytes := [0, 0, 0] },
    hash := SHA1_EMPTY, data := [] }

/-- A well-formed one-entry v8 cache store. -/
def cacheExample : DxvkStateCache :=
  { header := { magic := MAGIC_STRING, version := 8, entry_size := 0 },
    entries := [(SHA1_EMPTY, entryExample)] }

/-- Two small stores with equal versions and disjoint keys. -/
def storeA : DxvkStateCache :=
  { header := { magic := MAGIC_STRING, version := 8, entry_size := 0 },
    entries := [([1], { header := none, hash := [1], data := [10] })] }

/-- See `storeA`. -/
def storeB : DxvkStateCache :=
  { header := { magic := MAGIC_STRING, version := 8, entry_size := 0 },
    entries := [([2], { header := none, hash := [2], data := [20] })] }

/-- A v5 store, for exercising the version-mismatch path. -/
def storeC : DxvkStateCache :=
  { header := { magic := MAGIC_STRING, version := 5, entry_size := 20 },
    entries := [] }

/-- A two-entry v8 store, receiver for the re-insertion counterexample. -/
def storeD : DxvkStateCache :=
  { header := { magic := MAGIC_STRING, version := 8, entry_size := 0 },
    entries := [([1], { header := none, hash := [1], data := [10] }),
                ([2], { header := none, hash := [2], data := [20] })] }

/-- A one-entry v8 store sharing key `[1]` with `storeD` under a different
value. -/
def storeE : DxvkStateCache :=
  { header := { magic := MAGIC_STRING, version := 8, entry_size := 0 },
    entries := [([1], { header := none, hash := [1], data := [99] })] }

/-- A header-only v8 input file (no entries). -/
def fileV8 : MainApp.InputFile :=
  { ext := "dxvk-cache", bytes := [68, 88, 86, 75, 8, 0, 0, 0, 0, 0, 0, 0] }

/-- A header-only file whose version field is 0. -/
def fileV0 : MainApp.InputFile :=
  { ext := "dxvk-cache", bytes := [68, 88, 86, 75, 0, 0, 0, 0, 20, 0, 0, 0] }

/-- A header-only v5 legacy file. -/
def fileV5 : MainApp.InputFile :=
  { ext := "dxvk-cache", bytes := [68, 88, 86, 75, 5, 0, 0, 0, 20, 0, 0, 0] }

/-- An entry with a 1209-byte all-zero payload, for the migration step. -/
def entryMig : DxvkStateCacheEntry :=
  { header := none, hash := [], data := List.replicate 1209 0 }

/-! ## Lemmas: byte codec -/

theorem readExact_append (l1 l2 : List Nat) :
    readExact l1.length (l1 ++ l2) = some (l1, l2) := by
  unfold readExact
  rw [if_pos (by simp)]
  rw [List.take_left, List.drop_left]

theorem readExact_eq_some {n : Nat} {s b r : List Nat}
    (h : readExact n s = some (b, r)) :
    b = s.take n ∧ r = s.drop n ∧ n ≤ s.length := by
  by_cases hn : n ≤ s.length
  · rw [readExact, if_pos hn] at h
    obtain ⟨h1, h2⟩ := Prod.mk.injEq .. ▸ Option.some.injEq _ _ ▸ h
    exact ⟨h1.symm, h2.symm, hn⟩
  · rw [readExact, if_neg hn] at h
    cases h

theorem decodeLE_u32le (n : Nat) : decodeLE (u32le n) = n % 4294967296 := by
  simp only [decodeLE, u32le]
  omega

theorem u32le_length (n : Nat) : (u32le n).length = 4 := by
  simp [u32le]

theorem read_u32_append (bs s : List Nat) (h : bs.length = 4) :
    read_u32 (bs ++ s) = some (decodeLE bs, s) := by
  have := readExact_append bs s
  rw [h] at this
  rw [read_u32, this]

theorem new_decodeLE (sm b0 b1 b2 : Nat) (h0 : sm < 256) (h1 : b0 < 256)
    (h2 : b1 < 256) (h3 : b2 < 256) :
    DxvkStateCacheEntryHeader.new (decodeLE [sm, b0, b1, b2]) =
      ⟨sm, [b0, b1, b2]⟩ := by
  simp only [DxvkStateCacheEntryHeader.new, decodeLE, Nat.mod_eq_of_lt h0,
    Nat.mod_eq_of_lt h1, Nat.mod_eq_of_lt h2, Nat.mod_eq_of_lt h3,
    Nat.mul_zero, Nat.add_zero, DxvkStateCacheEntryHeader.mk.injEq,
    List.cons.injEq, and_true]
  refine ⟨by omega, by omega, by omega, by omega⟩

/-! ## Lemmas: the entry-read step of `DxvkStateCache::open` -/

theorem read_entry_ok_iff {s : List Nat} {x : DxvkStateCacheEntry × List Nat} :
    read_entry s = .ok x ↔ read_entry0 s = some x := by
  unfold read_entry
  cases read_entry0 s <;> simp

theorem read_entry_v7_ok_iff {s : List Nat} {size : Nat}
    {x : DxvkStateCacheEntry × List Nat} (hsz : ¬ size < HASH_SIZE) :
    read_entry_v7 s size = .ok x ↔ read_entry_v70 s size = some x := by
  unfold read_entry_v7
  rw [DxvkStateCacheEntry.with_length, if_neg hsz]
  cases read_entry_v70 s size <;> simp

theorem read_entry0_eq_some {s : List Nat} {e : DxvkStateCacheEntry} {rest : List Nat}
    (h : read_entry0 s = some (e, rest)) :
    ∃ n s1 hs s2 d,
      read_u32 s = some (n, s1) ∧
      readExact HASH_SIZE s1 = some (hs, s2) ∧
      readExact (DxvkStateCacheEntryHeader.new n).entry_size s2 = some (d, rest) ∧
      e = { header := some (DxvkStateCacheEntryHeader.new n), hash := hs, data := d } := by
  unfold read_entry0 at h
  simp only [Option.bind_eq_some, Option.some.injEq, Prod.mk.injEq] at h
  obtain ⟨⟨n, s1⟩, hu, ⟨hs, s2⟩, hq, ⟨d, s3⟩, hr, he, hrest⟩ := h
  exact ⟨n, s1, hs, s2, d, hu, hq, hrest ▸ hr, he.symm⟩

theorem read_entry_v70_eq_some {s : List Nat} {size : Nat}
    {e : DxvkStateCacheEntry} {rest : List Nat}
    (h : read_entry_v70 s size = some (e, rest)) :
    ∃ d s1 hs,
      readExact (size - HASH_SIZE) s = some (d, s1) ∧
      readExact HASH_SIZE s1 = some (hs, rest) ∧
      e = { header := none, hash := hs, data := d } := by
  unfold read_entry_v70 at h
  simp only [Option.bind_eq_some, Option.some.injEq, Prod.mk.injEq] at h
  obtain ⟨⟨d, s1⟩, hp, ⟨hs, s2⟩, hq, he, hrest⟩ := h
  exact ⟨d, s1, hs, hp, hrest ▸ hq, he.symm⟩

theorem read_entry_ok_sub {s : List Nat} {e : DxvkStateCacheEntry} {rest : List Nat}
    (h : read_entry s = .ok (e, rest)) : rest.length < s.length := by
  obtain ⟨n, s1, hs, s2, d, hu, hq, hr, -⟩ := read_entry0_eq_some (read_entry_ok_iff.mp h)
  unfold read_u32 at hu
  cases h4 : readExact 4 s with
  | none => rw [h4] at hu; cases hu
  | some u =>
    rw [h4] at hu
    obtain ⟨m, s1'⟩ := u
    cases hu
    obtain ⟨-, hu2, hu3⟩ := readExact_eq_some h4
    obtain ⟨-, hq2, hq3⟩ := readExact_eq_some hq
    obtain ⟨-, hr2, hr3⟩ := readExact_eq_some hr
    have l1 : s1.length = s.length - 4 := by rw [hu2, List.length_drop]
    have l2 : s2.length = s1.length - HASH_SIZE := by rw [hq2, List.length_drop]
    have l3 : rest.length ≤ s2.length := by
      rw [hr2, List.length_drop]
      omega
    simp only [HASH_SIZE] at l2 hq3
    omega

theorem read_entry_v7_ok_sub {s : List Nat} {size : Nat} {e : DxvkStateCacheEntry}
    {rest : List Nat} (h : read_entry_v7 s size = .ok (e, rest)) :
    rest.length < s.length := by
  unfold read_entry_v7 at h
  by_cases hsz : size < HASH_SIZE
  · rw [DxvkStateCacheEntry.with_length, if_pos hsz] at h
    cases h
  · rw [DxvkStateCacheEntry.with_length, if_neg hsz] at h
    cases hv : read_entry_v70 s size with
    | none => rw [hv] at h; cases h
    | some x =>
      rw [hv] at h
      cases h
      obtain ⟨d, s1, hs, hp, hq, -⟩ := read_entry_v70_eq_some hv
      obtain ⟨-, hp2, hp3⟩ := readExact_eq_some hp
      obtain ⟨-, hq2, hq3⟩ := readExact_eq_some hq
      subst hp2 hq2
      simp only [List.length_drop, HASH_SIZE] at *
      omega

theorem openStep_ok_sub {v es : Nat} {s : List Nat} {e : DxvkStateCacheEntry}
    {rest : List Nat} (h : openStep v es s = .ok (e, rest)) :
    rest.length < s.length := by
  unfold openStep at h
  by_cases hv : v > LEGACY_VERSION
  · rw [if_pos hv] at h; exact read_entry_ok_sub h
  · rw [if_neg hv] at h; exact read_entry_v7_ok_sub h

theorem read_entry_ne_panicked (s : List Nat) : read_entry s ≠ .panicked := by
  unfold read_entry
  cases read_entry0 s <;> simp

theorem openStep_panicked {v es : Nat} {s : List Nat}
    (h : openStep v es s = .panicked) : ¬ (7 < v ∨ 20 ≤ es) := by
  unfold openStep at h
  by_cases hv : v > LEGACY_VERSION
  · rw [if_pos hv] at h
    exact absurd h (read_entry_ne_panicked s)
  · rw [if_neg hv] at h
    unfold read_entry_v7 at h
    by_cases hsz : es < HASH_SIZE
    · rw [LEGACY_VERSION] at hv
      rw [HASH_SIZE] at hsz
      omega
    · rw [DxvkStateCacheEntry.with_length, if_neg hsz] at h
      cases hx : read_entry_v70 s es with
      | none => rw [hx] at h; cases h
      | some x => rw [hx] at h; cases h

theorem readExact_nil_pos {n : Nat} (h : 0 < n) : readExact n ([] : List Nat) = none := by
  rw [readExact, if_neg]
  simp
  omega

theorem openStep_nil (v es : Nat) (h : 7 < v ∨ 20 ≤ es) :
    openStep v es [] = .eof := by
  unfold openStep
  by_cases hv : v > LEGACY_VERSION
  · rw [if_pos hv]
    unfold read_entry read_entry0 read_u32
    rw [readExact_nil_pos (by omega)]
    rfl
  · rw [if_neg hv]
    have hes : 20 ≤ es := by
      rcases h with h | h
      · exact absurd h (by rwa [LEGACY_VERSION] at hv)
      · exact h
    unfold read_entry_v7
    rw [DxvkStateCacheEntry.with_length,
      if_neg (by simp only [HASH_SIZE]; omega)]
    unfold read_entry_v70
    by_cases h20 : es - HASH_SIZE = 0
    · rw [h20]
      rfl
    · rw [readExact_nil_pos (by omega)]
      rfl

/-! ## Lemmas: the read loop of `DxvkStateCache::open` -/

theorem openLoop_fuel_congr (v es : Nat) :
    ∀ (n : Nat) (s : List Nat) (acc : Entries) (f1 f2 : Nat),
      s.length ≤ n → s.length < f1 → s.length < f2 →
      openLoop v es f1 s acc = openLoop v es f2 s acc := by
  intro n
  induction n with
  | zero =>
    intro s acc f1 f2 hn h1 h2
    obtain ⟨a, rfl⟩ : ∃ a, f1 = a + 1 := ⟨f1 - 1, by omega⟩
    obtain ⟨b, rfl⟩ : ∃ b, f2 = b + 1 := ⟨f2 - 1, by omega⟩
    cases hstep : openStep v es s with
    | eof => simp only [openLoop, hstep]
    | panicked => simp only [openLoop, hstep]
    | ok p =>
      obtain ⟨e, rest⟩ := p
      exact absurd (openStep_ok_sub hstep) (by omega)
  | succ n ih =>
    intro s acc f1 f2 hn h1 h2
    obtain ⟨a, rfl⟩ : ∃ a, f1 = a + 1 := ⟨f1 - 1, by omega⟩
    obtain ⟨b, rfl⟩ : ∃ b, f2 = b + 1 := ⟨f2 - 1, by omega⟩
    cases hstep : openStep v es s with
    | eof => simp only [openLoop, hstep]
    | panicked => simp only [openLoop, hstep]
    | ok p =>
      obtain ⟨e, rest⟩ := p
      have hlt := openStep_ok_sub hstep
      simp only [openLoop, hstep]
      exact ih rest _ a b (by omega) (by omega) (by omega)

theorem openLoop_total (v es : Nat) (hok : 7 < v ∨ 20 ≤ es) :
    ∀ (n : Nat) (s : List Nat) (acc : Entries) (f : Nat),
      s.length ≤ n → s.length < f →
      ∃ entries, openLoop v es f s acc = .ok entries := by
  intro n
  induction n with
  | zero =>
    intro s acc f hn hf
    obtain ⟨a, rfl⟩ : ∃ a, f = a + 1 := ⟨f - 1, by omega⟩
    have hs : s = [] := List.length_eq_zero.mp (by omega)
    subst hs
    exact ⟨acc, by simp only [openLoop, openStep_nil v es hok]⟩
  | succ n ih =>
    intro s acc f hn hf
    obtain ⟨a, rfl⟩ : ∃ a, f = a + 1 := ⟨f - 1, by omega⟩
    cases hstep : openStep v es s with
    | eof => exact ⟨acc, by simp only [openLoop, hstep]⟩
    | panicked => exact absurd hstep (by intro hc; exact openStep_panicked hc hok)
    | ok p =>
      obtain ⟨e, rest⟩ := p
      have hlt := openStep_ok_sub hstep
      obtain ⟨entries, hE⟩ :=
        ih rest (if e.is_valid then lhmInsert acc e.hash e else acc) a
          (by omega) (by omega)
      exact ⟨entries, by simp only [openLoop, hstep]; exact hE⟩

/-! ## Lemmas: parsing back what `save` wrote -/

theorem entryFits_some {v es : Nat} {h : DxvkStateCacheEntryHeader}
    {hs d : List Nat}
    (hfit : entryFits v es { header := some h, hash := hs, data := d } = true) :
    hs.length = 20 ∧ 7 < v ∧ h.stage_mask < 256 ∧
      h.entry_size_bytes.length = 3 ∧ (∀ b ∈ h.entry_size_bytes, b < 256) ∧
      d.length = h.entry_size := by
  simp only [entryFits, HASH_SIZE, Bool.and_eq_true, beq_iff_eq,
    decide_eq_true_eq, List.all_eq_true] at hfit
  tauto

theorem entryFits_none {v es : Nat} {hs d : List Nat}
    (hfit : entryFits v es { header := none, hash := hs, data := d } = true) :
    hs.length = 20 ∧ v ≤ 7 ∧ 20 ≤ es ∧ d.length = es - 20 := by
  simp only [entryFits, HASH_SIZE, Bool.and_eq_true, beq_iff_eq,
    decide_eq_true_eq] at hfit
  tauto

theorem openStep_encode (v es : Nat) (e : DxvkStateCacheEntry) (rest : List Nat)
    (hfit : entryFits v es e = true) :
    openStep v es (encodeEntry e ++ rest) = .ok (e, rest) := by
  obtain ⟨hd, hs, d⟩ := e
  cases hd with
  | some h =>
    obtain ⟨hl, hv, hsm, hlen3, hb, hdl⟩ := entryFits_some hfit
    obtain ⟨b0, b1, b2, hbytes⟩ := List.length_eq_three.mp hlen3
    obtain ⟨sm, szb⟩ := h
    simp only at hbytes
    subst hbytes
    have hb0 : b0 < 256 := hb b0 (by simp)
    have hb1 : b1 < 256 := hb b1 (by simp)
    have hb2 : b2 < 256 := hb b2 (by simp)
    simp only at hsm hdl
    unfold openStep
    rw [if_pos (by rwa [LEGACY_VERSION])]
    have hshape : encodeEntry
        { header := some ⟨sm, [b0, b1, b2]⟩, hash := hs, data := d } ++ rest =
        [sm, b0, b1, b2] ++ (hs ++ (d ++ rest)) := by
      simp [encodeEntry]
    rw [read_entry_ok_iff, hshape]
    unfold read_entry0
    rw [read_u32_append [sm, b0, b1, b2] _ (by rfl)]
    rw [Option.some_bind]
    rw [new_decodeLE sm b0 b1 b2 hsm hb0 hb1 hb2]
    have h20 : readExact HASH_SIZE (hs ++ (d ++ rest)) = some (hs, d ++ rest) := by
      have := readExact_append hs (d ++ rest)
      rwa [hl] at this
    rw [h20, Option.some_bind]
    have hdat : readExact (DxvkStateCacheEntryHeader.entry_size ⟨sm, [b0, b1, b2]⟩)
        (d ++ rest) = some (d, rest) := by
      have := readExact_append d rest
      rwa [hdl] at this
    rw [hdat, Option.some_bind]
  | none =>
    obtain ⟨hl, hv, hes, hdl⟩ := entryFits_none hfit
    unfold openStep
    rw [if_neg (by rw [LEGACY_VERSION]; omega)]
    unfold read_entry_v7
    rw [DxvkStateCacheEntry.with_length,
      if_neg (by simp only [HASH_SIZE]; omega)]
    have hshape : encodeEntry { header := none, hash := hs, data := d } ++ rest =
        d ++ (hs ++ rest) := by
      simp [encodeEntry]
    rw [hshape]
    unfold read_entry_v70
    have hdat : readExact (es - HASH_SIZE) (d ++ (hs ++ rest)) =
        some (d, hs ++ rest) := by
      have := readExact_append d (hs ++ rest)
      rw [hdl] at this
      simpa only [HASH_SIZE] using this
    rw [hdat, Option.some_bind]
    have h20 : readExact HASH_SIZE (hs ++ rest) = some (hs, rest) := by
      have := readExact_append hs rest
      rwa [hl] at this
    rw [h20, Option.some_bind]

theorem encodeEntry_pos {v es : Nat} {e : DxvkStateCacheEntry}
    (hfit : entryFits v es e = true) : 0 < (encodeEntry e).length := by
  obtain ⟨hd, hs, d⟩ := e
  cases hd with
  | some h =>
    obtain ⟨hl, -⟩ := entryFits_some hfit
    simp [encodeEntry]
  | none =>
    obtain ⟨hl, -⟩ := entryFits_none hfit
    simp [encodeEntry, hl]

theorem lhmInsert_not_mem {α β : Type} [DecidableEq α] (l : List (α × β))
    (k : α) (v : β) (h : k ∉ l.map Prod.fst) :
    lhmInsert l k v = l ++ [(k, v)] := by
  rw [lhmInsert, if_neg h]

theorem openLoop_encode (v es : Nat) (hok : 7 < v ∨ 20 ≤ es) :
    ∀ (l acc : Entries) (f : Nat),
      (∀ p ∈ l, entryFits v es p.2 = true ∧ p.2.is_valid = true ∧ p.1 = p.2.hash) →
      ((acc ++ l).map Prod.fst).Nodup →
      (encodeAll l).length < f →
      openLoop v es f (encodeAll l) acc = .ok (acc ++ l) := by
  intro l
  induction l with
  | nil =>
    intro acc f _ _ hf
    obtain ⟨a, rfl⟩ : ∃ a, f = a + 1 := ⟨f - 1, by omega⟩
    have : encodeAll [] = [] := by simp [encodeAll]
    rw [this]
    simp only [openLoop, openStep_nil v es hok, List.append_nil]
  | cons p t ih =>
    intro acc f hall hnd hf
    obtain ⟨a, rfl⟩ : ∃ a, f = a + 1 := ⟨f - 1, by omega⟩
    obtain ⟨hfit, hvalid, hkey⟩ := hall p (by simp)
    have hshape : encodeAll (p :: t) = encodeEntry p.2 ++ encodeAll t := by
      simp [encodeAll]
    rw [hshape] at hf ⊢
    have hstep := openStep_encode v es p.2 (encodeAll t) hfit
    simp only [openLoop, hstep, hvalid, if_true]
    have hfresh : p.2.hash ∉ acc.map Prod.fst := by
      intro hc
      rw [← hkey] at hc
      rw [List.map_append] at hnd
      exact (List.disjoint_of_nodup_append hnd) hc (by simp)
    rw [lhmInsert_not_mem acc p.2.hash p.2 hfresh, ← hkey]
    have hre : (acc ++ [(p.1, p.2)]) ++ t = acc ++ p :: t := by
      simp
    have := ih (acc ++ [(p.1, p.2)]) a
      (fun q hq => hall q (by simp [hq]))
      (by rwa [hre])
      (by have := encodeEntry_pos hfit; simp at hf ⊢; omega)
    rw [this, hre]

/-! ## Lemmas: `DxvkStateCache::open` on a well-formed header -/

theorem u32le_decode_magic : u32le (decodeLE MAGIC_STRING) = MAGIC_STRING := by
  decide

theorem openCache_append (v es : Nat) (rest : List Nat)
    (hv : v < 4294967296) (hes : es < 4294967296) :
    DxvkStateCache.openCache (MAGIC_STRING ++ u32le v ++ u32le es ++ rest) =
      (match openLoop v es (rest.length + 1) rest [] with
       | .ok entries =>
         .ok { header := { magic := MAGIC_STRING, version := v, entry_size := es },
               entries := entries }
       | .error k msg => .error k msg
       | .panicked => Outcome.panicked
       | .diverged => Outcome.diverged) := by
  have h1 := read_u32_append MAGIC_STRING (u32le v ++ (u32le es ++ rest)) (by rfl)
  have h2 := read_u32_append (u32le v) (u32le es ++ rest) (u32le_length v)
  have h3 := read_u32_append (u32le es) rest (u32le_length es)
  rw [decodeLE_u32le, Nat.mod_eq_of_lt hv] at h2
  rw [decodeLE_u32le, Nat.mod_eq_of_lt hes] at h3
  unfold DxvkStateCache.openCache
  simp only [List.append_assoc, h1, h2, h3, u32le_decode_magic]
  rw [if_neg (by simp)]

/-! ## Claim theorems -/

/-- Claim C1, counterexample: a stream whose magic is `DXVK` but whose
version field is 1 — outside the ladder starting at 2 — is opened
successfully by `DxvkStateCache::open` (the code has no version check at
all), contradicting the claim that it fails with an unsupported-version
error. -/
theorem C1_counterexample :
    DxvkStateCache.openCache [68, 88, 86, 75, 1, 0, 0, 0, 20, 0, 0, 0] =
      .ok { header := { magic := [68, 88, 86, 75], version := 1, entry_size := 20 },
            entries := [] } := by
  decide

/-- Claim C1, amended: `DxvkStateCache::open` validates only the magic;
every version value is accepted and entry parsing proceeds (legacy layout
below 8, modern at 8 and above), succeeding for any trailing bytes whenever
the legacy `entry_size` underflow cannot strike. -/
theorem C1_no_version_check (v es : Nat) (rest : List Nat)
    (hv : v < 4294967296) (hes : es < 4294967296) (h : 8 ≤ v ∨ 20 ≤ es) :
    ∃ entries,
      DxvkStateCache.openCache (MAGIC_STRING ++ u32le v ++ u32le es ++ rest) =
        .ok { header := { magic := MAGIC_STRING, version := v, entry_size := es },
              entries := entries } := by
  obtain ⟨entries, hE⟩ := openLoop_total v es (by omega) rest.length rest []
    (rest.length + 1) (Nat.le_refl _) (by omega)
  exact ⟨entries, by rw [openCache_append v es rest hv hes, hE]⟩

/-- Claim C1, witness for the amended theorem at version 1. -/
theorem C1_witness :
    ∃ entries,
      DxvkStateCache.openCache (MAGIC_STRING ++ u32le 1 ++ u32le 20 ++ []) =
        .ok { header := { magic := MAGIC_STRING, version := 1, entry_size := 20 },
              entries := entries } :=
  C1_no_version_check 1 20 [] (by decide) (by decide) (Or.inr (by decide))

/-- Claim C2, counterexample: a modern (v8) stream truncated after an
entry's 4-byte sub-header and the first 3 bytes of its hash is read back
with no error at all — the mid-entry end-of-stream is swallowed as the
normal terminal condition, contradicting the claim that it surfaces as a
truncation error. -/
theorem C2_counterexample :
    DxvkStateCache.openCache
      [68, 88, 86, 75, 8, 0, 0, 0, 0, 0, 0, 0, 0, 5, 0, 0, 1, 2, 3] =
      .ok { header := { magic := [68, 88, 86, 75], version := 8, entry_size := 0 },
            entries := [] } := by
  decide

/-- Claim C2, amended: in the read loop of `DxvkStateCache::open` (modern
layout), an end-of-stream at an entry boundary terminates reading normally,
and an end-of-stream anywhere inside an entry's fields does too: for every
suffix of bytes after the header the loop returns `ok`, never an error. -/
theorem C2_eof_clean (v es : Nat) (hv : 8 ≤ v) :
    (∀ (f : Nat) (acc : Entries), openLoop v es (f + 1) [] acc = .ok acc) ∧
    (∀ (s : List Nat) (acc : Entries), ∃ entries,
        openLoop v es (s.length + 1) s acc = .ok entries) := by
  constructor
  · intro f acc
    simp only [openLoop, openStep_nil v es (Or.inl (by omega))]
  · intro s acc
    exact openLoop_total v es (Or.inl (by omega)) s.length s acc
      (s.length + 1) (Nat.le_refl _) (by omega)

/-- Claim C2, witness: the amended theorem at v8 with a stream that stops
inside an entry. -/
theorem C2_witness :
    openLoop 8 0 1 [] [] = .ok [] ∧
    ∃ entries, openLoop 8 0 4 [0, 5, 0] [] = .ok entries :=
  ⟨(C2_eof_clean 8 0 (by decide)).1 0 [],
   (C2_eof_clean 8 0 (by decide)).2 [0, 5, 0] []⟩

/-- Claim C3: saving a well-formed cache store (magic `DXVK`, 32-bit header
fields, every entry valid, keyed by its hash, keys distinct, and shaped for
the store's layout) and re-opening the bytes with `DxvkStateCache::open`
reproduces the store exactly: identical header fields and identical
(hash, data) pairs in identical order. -/
theorem C3_roundtrip (c : DxvkStateCache)
    (hm : c.header.magic = MAGIC_STRING)
    (hv : c.header.version < 4294967296)
    (hes : c.header.entry_size < 4294967296)
    (hok : 7 < c.header.version ∨ 20 ≤ c.header.entry_size)
    (hfit : ∀ p ∈ c.entries, entryFits c.header.version c.header.entry_size p.2 = true)
    (hvalid : ∀ p ∈ c.entries, p.2.is_valid = true)
    (hkey : ∀ p ∈ c.entries, p.1 = p.2.hash)
    (hnd : (c.entries.map Prod.fst).Nodup) :
    DxvkStateCache.openCache c.save = .ok c := by
  obtain ⟨⟨mg, v, es⟩, entries⟩ := c
  simp only at hm hv hes hok hfit hvalid hkey hnd
  subst hm
  have hsave : DxvkStateCache.save ⟨⟨MAGIC_STRING, v, es⟩, entries⟩ =
      MAGIC_STRING ++ u32le v ++ u32le es ++ encodeAll entries := by
    simp [DxvkStateCache.save, encodeAll]
  rw [hsave, openCache_append v es _ hv hes]
  rw [openLoop_encode v es hok entries [] ((encodeAll entries).length + 1)
    (fun p hp => ⟨hfit p hp, hvalid p hp, hkey p hp⟩) (by simpa using hnd)
    (by omega)]
  simp

/-- Claim C3, witness: the round trip on a concrete one-entry v8 store. -/
theorem C3_witness :
    DxvkStateCache.openCache cacheExample.save = .ok cacheExample :=
  C3_roundtrip cacheExample (by decide) (by decide) (by decide)
    (by decide) (by decide) (by decide) (by decide) (by decide)

/-- Claim C8: entry layout is selected solely by the header version with
the boundary exactly at 8: the read step dispatches on `version < 8`; the
legacy reader consumes a payload of `entry_size - 20` bytes then a 20-byte
hash; the modern reader consumes a stage-mask byte, a 3-byte little-endian
size, a 20-byte hash, then a payload of exactly that size; and the writer
emits the matching layout: the header then, per entry, payload-hash for a
legacy-version store and sub-header/hash/payload for a modern-version
store. -/
theorem C8_layout :
    (∀ (v es : Nat) (s : List Nat),
      openStep v es s = if v < 8 then read_entry_v7 s es else read_entry s) ∧
    (∀ (es : Nat) (d hs rest : List Nat), 20 ≤ es → d.length = es - 20 →
      hs.length = 20 →
      read_entry_v7 (d ++ (hs ++ rest)) es =
        .ok ({ header := none, hash := hs, data := d }, rest)) ∧
    (∀ (sm b0 b1 b2 : Nat) (hs d rest : List Nat),
      sm < 256 → b0 < 256 → b1 < 256 → b2 < 256 →
      hs.length = 20 → d.length = b0 + 256 * (b1 + 256 * b2) →
      read_entry ([sm, b0, b1, b2] ++ (hs ++ (d ++ rest))) =
        .ok ({ header := some { stage_mask := sm, entry_size_bytes := [b0, b1, b2] },
               hash := hs, data := d }, rest)) ∧
    (∀ c : DxvkStateCache,
      (∀ p ∈ c.entries, entryFits c.header.version c.header.entry_size p.2 = true) →
      c.save = c.header.magic ++ u32le c.header.version ++
          u32le c.header.entry_size ++ encodeAll c.entries ∧
        ∀ p ∈ c.entries,
          (c.header.version < 8 → encodeEntry p.2 = p.2.data ++ p.2.hash) ∧
          (8 ≤ c.header.version → ∃ h, p.2.header = some h ∧
            encodeEntry p.2 =
              [h.stage_mask] ++ h.entry_size_bytes ++ p.2.hash ++ p.2.data)) := by
  refine ⟨?_, ?_, ?_, ?_⟩
  · intro v es s
    unfold openStep
    by_cases h : v < 8
    · rw [if_pos h, if_neg (by rw [LEGACY_VERSION]; omega)]
    · rw [if_neg h, if_pos (by rw [LEGACY_VERSION]; omega)]
  · intro es d hs rest hes hd hhs
    unfold read_entry_v7
    rw [DxvkStateCacheEntry.with_length,
      if_neg (by simp only [HASH_SIZE]; omega)]
    unfold read_entry_v70
    have h1 : readExact (es - HASH_SIZE) (d ++ (hs ++ rest)) =
        some (d, hs ++ rest) := by
      have := readExact_append d (hs ++ rest)
      rw [hd] at this
      simpa only [HASH_SIZE] using this
    rw [h1, Option.some_bind]
    have h2 : readExact HASH_SIZE (hs ++ rest) = some (hs, rest) := by
      have := readExact_append hs rest
      rwa [hhs] at this
    rw [h2, Option.some_bind]
  · intro sm b0 b1 b2 hs d rest h0 h1 h2 h3 hhs hd
    rw [read_entry_ok_iff]
    unfold read_entry0
    rw [read_u32_append [sm, b0, b1, b2] _ (by rfl), Option.some_bind]
    rw [new_decodeLE sm b0 b1 b2 h0 h1 h2 h3]
    have hh : readExact HASH_SIZE (hs ++ (d ++ rest)) = some (hs, d ++ rest) := by
      have := readExact_append hs (d ++ rest)
      rwa [hhs] at this
    rw [hh, Option.some_bind]
    have hsz : DxvkStateCacheEntryHeader.entry_size
        { stage_mask := sm, entry_size_bytes := [b0, b1, b2] } =
        b0 + 256 * (b1 + 256 * b2) := by
      simp only [DxvkStateCacheEntryHeader.entry_size, decodeLE]
      omega
    have hdat : readExact (DxvkStateCacheEntryHeader.entry_size
        { stage_mask := sm, entry_size_bytes := [b0, b1, b2] }) (d ++ rest) =
        some (d, rest) := by
      rw [hsz]
      have := readExact_append d rest
      rwa [hd] at this
    rw [hdat, Option.some_bind]
  · intro c hfit
    refine ⟨rfl, ?_⟩
    intro p hp
    have hf := hfit p hp
    rcases hp2 : p.2 with ⟨hd, hsh, hdt⟩
    rw [hp2] at hf
    cases hd with
    | some h =>
      obtain ⟨-, hv7, -⟩ := entryFits_some hf
      constructor
      · intro hlt
        omega
      · intro hge
        exact ⟨h, rfl, by simp [encodeEntry]⟩
    | none =>
      obtain ⟨-, hv7, -⟩ := entryFits_none hf
      constructor
      · intro hlt
        simp [encodeEntry]
      · intro hge
        omega

/-- Claim C8, witness: the dispatch, both concrete entry layouts, and the
writer equation, each at concrete inputs. -/
theorem C8_witness :
    openStep 7 20 [] = (if (7 : Nat) < 8 then read_entry_v7 [] 20 else read_entry []) ∧
    read_entry_v7 ([5] ++ (SHA1_EMPTY ++ [])) 21 =
      .ok ({ header := none, hash := SHA1_EMPTY, data := [5] }, []) ∧
    read_entry ([1, 2, 0, 0] ++ (SHA1_EMPTY ++ ([9, 9] ++ []))) =
      .ok ({ header := some { stage_mask := 1, entry_size_bytes := [2, 0, 0] },
             hash := SHA1_EMPTY, data := [9, 9] }, []) ∧
    cacheExample.save = cacheExample.header.magic ++
      u32le cacheExample.header.version ++ u32le cacheExample.header.entry_size ++
      encodeAll cacheExample.entries :=
  ⟨C8_layout.1 7 20 [],
   C8_layout.2.1 21 [5] SHA1_EMPTY [] (by decide) (by decide) (by decide),
   C8_layout.2.2.1 1 2 0 0 SHA1_EMPTY [9, 9] [] (by decide) (by decide)
     (by decide) (by decide) (by decide) (by decide),
   (C8_layout.2.2.2 cacheExample (by decide)).1⟩

theorem getD_set_ne (l : List Nat) (i j a d : Nat) (h : i ≠ j) :
    (l.set i a).getD j d = l.getD j d := by
  rw [List.getD_eq_getElem?_getD, List.getD_eq_getElem?_getD,
    List.getElem?_set_ne h]

/-- Claim C9 (spec-modelled): for an entry whose payload holds at least
1209 bytes, the v2→v3 step of `convert` boolean-inverts payload byte 1204
and forces payload byte 1208 to 0 — after asserting each touched byte is 0
or 1, a violation being a fatal assertion — and recomputes the entry's hash
from the mutated payload (legacy sentinel rule when there is no
sub-header). -/
theorem C9_migration_v2v3 (e : DxvkStateCacheEntry)
    (hlen : 1209 ≤ e.data.length) :
    (e.data.getD 1204 0 ≤ 1 → e.data.getD 1208 0 ≤ 1 →
      Migrator.convert e 2 3 = some
        { header := e.header,
          hash := sha1Bytes
            ((e.data.set 1204 (1 - e.data.getD 1204 0)).set 1208 0 ++
              if e.header.isNone then SHA1_EMPTY else []),
          data := (e.data.set 1204 (1 - e.data.getD 1204 0)).set 1208 0 }) ∧
    (2 ≤ e.data.getD 1204 0 → Migrator.convert e 2 3 = none) ∧
    (e.data.getD 1204 0 ≤ 1 → 2 ≤ e.data.getD 1208 0 →
      Migrator.convert e 2 3 = none) := by
  have hconv : Migrator.convert e 2 3 =
      match Migrator.stepV2toV3 e with
      | none => none
      | some e1 => some e1 := rfl
  refine ⟨?_, ?_, ?_⟩
  · intro h4 h8
    have hinv : Migrator.editInvert e.data 1204 =
        some (e.data.set 1204 (1 - e.data.getD 1204 0)) := by
      unfold Migrator.editInvert
      rw [if_pos (by omega), if_pos h4]
    have hforce : Migrator.editForce
        (e.data.set 1204 (1 - e.data.getD 1204 0)) 1208 0 =
        some ((e.data.set 1204 (1 - e.data.getD 1204 0)).set 1208 0) := by
      unfold Migrator.editForce
      rw [if_pos (by rw [List.length_set]; omega),
        if_pos (by rw [getD_set_ne _ _ _ _ _ (by omega)]; exact h8)]
    rw [hconv]
    unfold Migrator.stepV2toV3
    rw [hinv]
    simp only [hforce]
    rfl
  · intro h4
    have hinv : Migrator.editInvert e.data 1204 = none := by
      unfold Migrator.editInvert
      rw [if_pos (by omega), if_neg (by omega)]
    rw [hconv]
    unfold Migrator.stepV2toV3
    rw [hinv]
  · intro h4 h8
    have hinv : Migrator.editInvert e.data 1204 =
        some (e.data.set 1204 (1 - e.data.getD 1204 0)) := by
      unfold Migrator.editInvert
      rw [if_pos (by omega), if_pos h4]
    have hforce : Migrator.editForce
        (e.data.set 1204 (1 - e.data.getD 1204 0)) 1208 0 = none := by
      unfold Migrator.editForce
      rw [if_pos (by rw [List.length_set]; omega),
        if_neg (by rw [getD_set_ne _ _ _ _ _ (by omega)]; omega)]
    rw [hconv]
    unfold Migrator.stepV2toV3
    rw [hinv]
    simp only [hforce]

set_option maxRecDepth 65536 in
/-- Claim C9, witness: the v2→v3 step on a concrete 1209-byte all-zero
payload. -/
theorem C9_witness :
    Migrator.convert entryMig 2 3 = some
      { header := entryMig.header,
        hash := sha1Bytes
          ((entryMig.data.set 1204 (1 - entryMig.data.getD 1204 0)).set 1208 0 ++
            if entryMig.header.isNone then SHA1_EMPTY else []),
        data := (entryMig.data.set 1204 (1 - entryMig.data.getD 1204 0)).set 1208 0 } :=
  (C9_migration_v2v3 entryMig (by decide)).1 (by decide) (by decide)

/-- Claim C10: on a legacy file (version below 8) with magic `DXVK`,
reading an entry computes `entry_size - HASH_SIZE` on usize, so a header
`entry_size` below 20 panics (`with_length`'s buffer allocation) no matter
what follows the header, while `entry_size ≥ 20` makes the whole read
total: `DxvkStateCache::open` returns `ok` for every byte suffix. -/
theorem C10_legacy_underflow (v es : Nat) (rest : List Nat)
    (hv8 : v < 8) (hv : v < 4294967296) (hes : es < 4294967296) :
    (es < 20 →
      DxvkStateCache.openCache (MAGIC_STRING ++ u32le v ++ u32le es ++ rest) =
        .panicked) ∧
    (20 ≤ es → ∃ c,
      DxvkStateCache.openCache (MAGIC_STRING ++ u32le v ++ u32le es ++ rest) =
        .ok c) := by
  constructor
  · intro hlt
    rw [openCache_append v es rest hv hes]
    have hstep : openStep v es rest = .panicked := by
      unfold openStep
      rw [if_neg (by rw [LEGACY_VERSION]; omega)]
      unfold read_entry_v7
      rw [DxvkStateCacheEntry.with_length,
        if_pos (by simp only [HASH_SIZE]; omega)]
    simp only [openLoop, hstep]
  · intro hge
    obtain ⟨entries, hE⟩ := openLoop_total v es (Or.inr hge) rest.length rest []
      (rest.length + 1) (Nat.le_refl _) (by omega)
    exact ⟨_, by rw [openCache_append v es rest hv hes, hE]⟩

/-- Claim C4: for both copies of `is_valid` (in `dxvk.rs` and `main.rs`),
an entry is valid exactly when its stored hash equals, byte for byte, the
SHA-1 digest of its data (sub-header present) or of its data followed by
the 20-byte `SHA1_EMPTY` sentinel (no sub-header, the legacy layout). -/
theorem C4_is_valid :
    (∀ e : DxvkStateCacheEntry, e.is_valid = true ↔
      e.hash = sha1Bytes (e.data ++ if e.header.isSome then [] else SHA1_EMPTY)) ∧
    (∀ e : MainApp.Entry, e.is_valid = true ↔
      e.hash = sha1Bytes (e.data ++ if e.header.isSome then [] else SHA1_EMPTY)) := by
  constructor <;> intro e <;> obtain ⟨hd, hs, d⟩ := e <;> cases hd <;>
    · simp only [DxvkStateCacheEntry.is_valid, MainApp.Entry.is_valid,
        Sha1.default, Sha1.update, Sha1.digestBytes, Option.isNone_none,
        Option.isNone_some, Option.isSome_none, Option.isSome_some, if_true,
        if_false, Bool.false_eq_true, List.nil_append, List.append_nil,
        beq_iff_eq, ite_true, ite_false]
      exact eq_comm

/-! ## Lemmas: the insertion-ordered map -/

theorem lhmInsert_eq {α β : Type} [DecidableEq α] (l : List (α × β))
    (k : α) (v : β) :
    lhmInsert l k v = (l.filter fun p => decide (p.1 ≠ k)) ++ [(k, v)] := by
  rw [lhmInsert]
  split
  · rfl
  · next h =>
    congr 1
    refine (List.filter_eq_self.mpr fun p hp => ?_).symm
    have hpk : p.1 ≠ k := fun hc => h (hc ▸ List.mem_map_of_mem Prod.fst hp)
    simpa using hpk

theorem lookupKey_eq_none {α β : Type} [DecidableEq α] {l : List (α × β)} {k : α}
    (h : k ∉ l.map Prod.fst) : lookupKey k l = none := by
  induction l with
  | nil => rfl
  | cons p t ih =>
    simp only [List.map_cons, List.mem_cons] at h
    push_neg at h
    rw [lookupKey, if_neg (fun hc => h.1 hc.symm)]
    exact ih h.2

theorem lookupKey_append {α β : Type} [DecidableEq α] (k : α)
    (l1 l2 : List (α × β)) :
    lookupKey k (l1 ++ l2) =
      match lookupKey k l1 with
      | some v => some v
      | none => lookupKey k l2 := by
  induction l1 with
  | nil => rfl
  | cons p t ih =>
    by_cases hp : p.1 = k <;> simp [lookupKey, hp, ih]

theorem lookupKey_filter_ne {α β : Type} [DecidableEq α] (l : List (α × β))
    (k k' : α) (hne : k' ≠ k) :
    lookupKey k' (l.filter fun p => decide (p.1 ≠ k)) = lookupKey k' l := by
  induction l with
  | nil => rfl
  | cons p t ih =>
    by_cases hp : p.1 = k
    · have hp' : ¬ p.1 = k' := fun hc => hne (hc.symm.trans hp)
      have hd : decide (p.1 ≠ k) = false := by simp [hp]
      rw [List.filter_cons, hd]
      simp only [Bool.false_eq_true, if_false]
      rw [lookupKey, if_neg hp']
      exact ih
    · have hd : decide (p.1 ≠ k) = true := by simp [hp]
      rw [List.filter_cons, hd, if_pos rfl]
      by_cases hpk : p.1 = k'
      · rw [lookupKey, if_pos hpk, lookupKey, if_pos hpk]
      · rw [lookupKey, if_neg hpk, lookupKey, if_neg hpk]
        exact ih

theorem lookupKey_insert_self {α β : Type} [DecidableEq α] (l : List (α × β))
    (k : α) (v : β) : lookupKey k (lhmInsert l k v) = some v := by
  rw [lhmInsert_eq, lookupKey_append]
  have hnone : lookupKey k (l.filter fun p => decide (p.1 ≠ k)) = none := by
    apply lookupKey_eq_none
    intro hc
    obtain ⟨p, hp, hfst⟩ := List.mem_map.mp hc
    have hpred := List.of_mem_filter hp
    simp only [decide_eq_true_eq] at hpred
    exact hpred hfst
  rw [hnone]
  rw [lookupKey, if_pos rfl]

theorem lookupKey_insert_ne {α β : Type} [DecidableEq α] (l : List (α × β))
    (k k' : α) (v : β) (hne : k' ≠ k) :
    lookupKey k' (lhmInsert l k v) = lookupKey k' l := by
  rw [lhmInsert_eq, lookupKey_append, lookupKey_filter_ne l k k' hne]
  cases hx : lookupKey k' l with
  | some w => rfl
  | none =>
    rw [lookupKey, if_neg (fun hc => hne hc.symm)]
    rfl

theorem extendEntries_cons {α β : Type} [DecidableEq α] (l1 : List (α × β))
    (p : α × β) (t : List (α × β)) :
    extendEntries l1 (p :: t) = extendEntries (lhmInsert l1 p.1 p.2) t := rfl

theorem extendEntries_eq {α β : Type} [DecidableEq α] :
    ∀ (l2 l1 : List (α × β)), (l2.map Prod.fst).Nodup →
      extendEntries l1 l2 = keepKeys l1 (l2.map Prod.fst) ++ l2 := by
  intro l2
  induction l2 with
  | nil =>
    intro l1 _
    simp [extendEntries, keepKeys]
  | cons q t ih =>
    intro l1 hnd
    simp only [List.map_cons, List.nodup_cons] at hnd
    obtain ⟨hq, hnd⟩ := hnd
    rw [extendEntries_cons, ih _ hnd, lhmInsert_eq]
    unfold keepKeys
    rw [List.filter_append]
    have hq1 : (([(q.1, q.2)] : List (α × β)).filter
        fun p => decide (p.1 ∉ t.map Prod.fst)) = [(q.1, q.2)] := by
      simp [hq]
    rw [hq1, List.filter_filter]
    have hcong : (l1.filter fun a =>
        decide (a.1 ∉ t.map Prod.fst) && decide (a.1 ≠ q.1)) =
        l1.filter fun a => decide (a.1 ∉ q.1 :: t.map Prod.fst) := by
      apply List.filter_congr
      intro x _
      by_cases h1 : x.1 = q.1 <;> by_cases h2 : x.1 ∈ t.map Prod.fst <;>
        simp [h1, h2]
    rw [hcong, List.append_assoc, List.singleton_append, List.map_cons]

theorem length_filter_not_add {γ : Type} (l : List γ) (p : γ → Bool) :
    (l.filter p).length + (l.filter fun a => !(p a)).length = l.length := by
  induction l with
  | nil => rfl
  | cons a t ih =>
    cases hp : p a <;> simp [List.filter_cons, hp] <;> omega

theorem length_filter_fst {α β : Type} (l : List (α × β)) (p : α → Bool) :
    (l.filter fun q => p q.1).length = ((l.map Prod.fst).filter p).length := by
  induction l with
  | nil => rfl
  | cons q t ih =>
    cases hp : p q.1 <;> simp [List.filter_cons, hp, ih]

theorem extendEntries_count {α β : Type} [DecidableEq α] (l1 l2 : List (α × β))
    (hnda : (l1.map Prod.fst).Nodup) (hnd : (l2.map Prod.fst).Nodup) :
    (extendEntries l1 l2).length - l1.length =
      (freshKeys (l1.map Prod.fst) (l2.map Prod.fst)).length := by
  have heq := extendEntries_eq l2 l1 hnd
  have hlen : (extendEntries l1 l2).length =
      (keepKeys l1 (l2.map Prod.fst)).length + l2.length := by
    rw [heq, List.length_append]
  have hsplitA := length_filter_not_add l1
    (fun p => decide (p.1 ∉ l2.map Prod.fst))
  have hdropA : (l1.filter fun p =>
      !(decide (p.1 ∉ l2.map Prod.fst))).length =
      ((l1.map Prod.fst).filter fun x =>
        decide (x ∈ l2.map Prod.fst)).length := by
    have h1 : (l1.filter fun p => !(decide (p.1 ∉ l2.map Prod.fst))) =
        l1.filter fun p => decide (p.1 ∈ l2.map Prod.fst) := by
      apply List.filter_congr
      intro x _
      by_cases hx : x.1 ∈ l2.map Prod.fst <;> simp [hx]
    rw [h1]
    exact length_filter_fst l1 fun x => decide (x ∈ l2.map Prod.fst)
  have hsplitB := length_filter_not_add (l2.map Prod.fst)
    (fun x => decide (x ∈ l1.map Prod.fst))
  have hfreshB : ((l2.map Prod.fst).filter fun x =>
      !(decide (x ∈ l1.map Prod.fst))).length =
      (freshKeys (l1.map Prod.fst) (l2.map Prod.fst)).length := by
    unfold freshKeys
    congr 1
    apply List.filter_congr
    intro x _
    by_cases hx : x ∈ l1.map Prod.fst <;> simp [hx]
  have hperm : ((l1.map Prod.fst).filter fun x =>
      decide (x ∈ l2.map Prod.fst)).Perm
      ((l2.map Prod.fst).filter fun x =>
        decide (x ∈ l1.map Prod.fst)) := by
    apply (List.perm_ext_iff_of_nodup (hnda.filter _) (hnd.filter _)).mpr
    intro x
    simp only [List.mem_filter, decide_eq_true_eq]
    tauto
  have hinter := hperm.length_eq
  have hbl : (l2.map Prod.fst).length = l2.length := List.length_map _ _
  unfold keepKeys at hlen
  omega

theorem extendEntries_disjoint_length {α β : Type} [DecidableEq α]
    (l1 l2 : List (α × β)) (hnd : (l2.map Prod.fst).Nodup)
    (hd : ∀ k, k ∈ l1.map Prod.fst → k ∉ l2.map Prod.fst) :
    (extendEntries l1 l2).length = l1.length + l2.length := by
  rw [extendEntries_eq l2 l1 hnd, List.length_append]
  have hkeep : keepKeys l1 (l2.map Prod.fst) = l1 := by
    unfold keepKeys
    apply List.filter_eq_self.mpr
    intro p hp
    have hnp : p.1 ∉ l2.map Prod.fst :=
      hd p.1 (List.mem_map_of_mem Prod.fst hp)
    simpa using hnp
  rw [hkeep]

theorem extendEntries_lookup_not_mem {α β : Type} [DecidableEq α] :
    ∀ (l2 l1 : List (α × β)) (k : α), k ∉ l2.map Prod.fst →
      lookupKey k (extendEntries l1 l2) = lookupKey k l1 := by
  intro l2
  induction l2 with
  | nil => intro l1 k _; rfl
  | cons p t ih =>
    intro l1 k hk
    simp only [List.map_cons, List.mem_cons] at hk
    push_neg at hk
    rw [extendEntries_cons, ih _ _ hk.2, lookupKey_insert_ne _ _ _ _ hk.1]

theorem extendEntries_lookup_mem {α β : Type} [DecidableEq α] :
    ∀ (l2 l1 : List (α × β)) (k : α) (v : β), (l2.map Prod.fst).Nodup →
      (k, v) ∈ l2 → lookupKey k (extendEntries l1 l2) = some v := by
  intro l2
  induction l2 with
  | nil =>
    intro l1 k v _ h
    simp at h
  | cons p t ih =>
    intro l1 k v hnd hm
    simp only [List.map_cons, List.nodup_cons] at hnd
    obtain ⟨hp, hnd⟩ := hnd
    rw [extendEntries_cons]
    rcases List.mem_cons.mp hm with he | ht
    · obtain rfl := he.symm
      have hkt : k ∉ t.map Prod.fst := hp
      rw [extendEntries_lookup_not_mem t _ k hkt]
      exact lookupKey_insert_self l1 k v
    · exact ih _ _ _ hnd ht

/-- Claim C5, counterexample: merging `storeE` (key `[1]`, new value) into
`storeD` (keys `[1]`, `[2]`, in that order) under equal versions overwrites
the value at key `[1]` but **moves that key to the back** of the iteration
order — the result's keys are `[2], [1]`, not `[1], [2]` — contradicting
the claim that a hash already present is overwritten without changing its
position. -/
theorem C5_counterexample :
    storeD.header.version = storeE.header.version ∧
    storeD.entries.map Prod.fst = [[1], [2]] ∧
    (storeD.extend storeE).2.entries.map Prod.fst = [[2], [1]] ∧
    lookupKey [1] (storeD.extend storeE).2.entries =
      some { header := none, hash := [1], data := [99] } := by
  decide

/-- Claim C5, amended: under equal header versions (and the store invariant
of duplicate-free keys), `DxvkStateCache::extend` inserts each incoming
entry keyed by its hash such that a hash already present has its value
overwritten and its key detached and re-attached at the **back** of the
iteration order, hashes not already present are appended in incoming order
— so the result is the surviving old entries in order followed by the
incoming entries in incoming order — the returned count equals the number
of newly introduced keys (final size minus size before), and merging
disjoint hash sets yields a store of size equal to the sum of both. -/
theorem C5_extend_move_to_back (a b : DxvkStateCache)
    (hv : a.header.version = b.header.version)
    (hnda : (a.entries.map Prod.fst).Nodup)
    (hnd : (b.entries.map Prod.fst).Nodup) :
    a.extend b =
      (.ok ((extendEntries a.entries b.entries).length - a.entries.length),
        { header := a.header, entries := extendEntries a.entries b.entries }) ∧
    extendEntries a.entries b.entries =
      keepKeys a.entries (b.entries.map Prod.fst) ++ b.entries ∧
    (extendEntries a.entries b.entries).length - a.entries.length =
      (freshKeys (a.entries.map Prod.fst) (b.entries.map Prod.fst)).length ∧
    (∀ k v, (k, v) ∈ b.entries →
      lookupKey k (extendEntries a.entries b.entries) = some v) ∧
    (∀ k, k ∉ b.entries.map Prod.fst →
      lookupKey k (extendEntries a.entries b.entries) = lookupKey k a.entries) ∧
    ((∀ k, k ∈ a.entries.map Prod.fst → k ∉ b.entries.map Prod.fst) →
      (extendEntries a.entries b.entries).length =
        a.entries.length + b.entries.length) := by
  refine ⟨?_, extendEntries_eq b.entries a.entries hnd,
    extendEntries_count a.entries b.entries hnda hnd,
    fun k v hm => extendEntries_lookup_mem _ _ k v hnd hm,
    fun k hk => extendEntries_lookup_not_mem _ _ k hk,
    fun hd => extendEntries_disjoint_length a.entries b.entries hnd hd⟩
  rw [DxvkStateCache.extend, if_neg (not_not_intro hv)]

/-- Claim C5, witness for the amended theorem: the merge equation and the
survivors-then-incoming structure at two concrete one-entry stores sharing
no key. -/
theorem C5_move_to_back_witness :
    storeD.extend storeE =
      (.ok ((extendEntries storeD.entries storeE.entries).length -
          storeD.entries.length),
        { header := storeD.header,
          entries := extendEntries storeD.entries storeE.entries }) ∧
    extendEntries storeD.entries storeE.entries =
      keepKeys storeD.entries (storeE.entries.map Prod.fst) ++ storeE.entries :=
  ⟨(C5_extend_move_to_back storeD storeE rfl (by decide) (by decide)).1,
   (C5_extend_move_to_back storeD storeE rfl (by decide) (by decide)).2.1⟩

/-- Claim C6, counterexample: two header-only files whose detected versions
differ (0 and then 5) sail through the merge loop of `main` with no
version-mismatch error at all: a first file with version 0 is
indistinguishable from "nothing detected yet" (the `config.version == 0`
sentinel), so the second file's version becomes canonical, contradicting
the claim that differing versions always yield `InvalidInput` with the
first file canonical. -/
theorem C6_counterexample :
    (MainApp.read_header fileV0.bytes).map (fun p => p.1.version) = some 0 ∧
    (MainApp.read_header fileV5.bytes).map (fun p => p.1.version) = some 5 ∧
    MainApp.processFiles MainApp.cfg0 [] [fileV0, fileV5] =
      .ok ({ version := 5, entry_size := 20, legacy := true }, []) := by
  decide

/-- Claim C6, amended: `DxvkStateCache::extend` rejects any version
mismatch with `InvalidInput`, leaving the receiving store untouched; and in
the merge loop of `main`, once a nonzero canonical version has been
detected, a file whose header version differs is rejected with
`InvalidInput` (a first file with version 0 leaves detection open, so this
guarantee needs the canonical version to be nonzero). -/
theorem C6_version_mismatch (a b : DxvkStateCache)
    (hab : a.header.version ≠ b.header.version)
    (cfg : MainApp.Config) (entries : MainApp.Entries) (f : MainApp.InputFile)
    (hdr : MainApp.Header) (rest : List Nat)
    (hcv : cfg.version ≠ 0) (hext : f.ext = "dxvk-cache")
    (hrd : MainApp.read_header f.bytes = some (hdr, rest))
    (hmg : hdr.magic = MAGIC_STRING) (hne : hdr.version ≠ cfg.version) :
    a.extend b =
      (.error .invalidInput
        ("State cache version mismatch: expected v" ++ toString a.header.version ++
          ", found v" ++ toString b.header.version), a) ∧
    MainApp.processFile cfg entries f =
      .error .invalidInput
        ("State cache version mismatch: expected v" ++ toString hdr.version ++
          ", found v" ++ toString cfg.version) := by
  constructor
  · rw [DxvkStateCache.extend, if_pos hab]
  · simp only [MainApp.processFile, hext, ne_eq, not_true_eq_false, if_false,
      hrd, hmg, hcv, hne, ite_false, ite_true, not_false_eq_true]

/-- Claim C6, witness: the amended theorem at concrete v8/v5 stores and a
concrete v5 file against a detected v8 configuration. -/
theorem C6_witness :
    storeA.extend storeC =
      (.error .invalidInput
        ("State cache version mismatch: expected v" ++ toString (8 : Nat) ++
          ", found v" ++ toString (5 : Nat)), storeA) ∧
    MainApp.processFile { version := 8, entry_size := 0, legacy := false } [] fileV5 =
      .error .invalidInput
        ("State cache version mismatch: expected v" ++ toString (5 : Nat) ++
          ", found v" ++ toString (8 : Nat)) :=
  C6_version_mismatch storeA storeC (by decide)
    { version := 8, entry_size := 0, legacy := false } [] fileV5
    { magic := MAGIC_STRING, version := 5, entry_size := 20 } []
    (by decide) rfl (by decide) rfl (by decide)

/-- Claim C7: when the merge loop over all input files completes with zero
valid entries accumulated, `main` fails with `InvalidData` ("No valid state
cache entries found") and produces no output bytes — the emptiness check
sits before any output is created. -/
theorem C7_no_valid_entries (files : List MainApp.InputFile)
    (cfg : MainApp.Config)
    (h : MainApp.processFiles MainApp.cfg0 [] files = .ok (cfg, [])) :
    MainApp.mainRun files =
      .error .invalidData "No valid state cache entries found" ∧
    ∀ out, MainApp.mainRun files ≠ .ok out := by
  have hrun : MainApp.mainRun files =
      .error .invalidData "No valid state cache entries found" := by
    unfold MainApp.mainRun
    rw [h]
    rfl
  exact ⟨hrun, fun out hc => by rw [hrun] at hc; cases hc⟩

/-- Claim C7, witness: a single header-only v8 file yields zero entries and
the `InvalidData` failure. -/
theorem C7_witness :
    MainApp.mainRun [fileV8] =
      .error .invalidData "No valid state cache entries found" ∧
    ∀ out, MainApp.mainRun [fileV8] ≠ .ok out :=
  C7_no_valid_entries [fileV8] { version := 8, entry_size := 0, legacy := false }
    (by decide)

/-- Claim C10, witness: version 7 with `entry_size = 0` panics; with
`entry_size = 20` it opens fine. -/
theorem C10_witness :
    DxvkStateCache.openCache (MAGIC_STRING ++ u32le 7 ++ u32le 0 ++ []) =
      .panicked ∧
    ∃ c, DxvkStateCache.openCache (MAGIC_STRING ++ u32le 7 ++ u32le 20 ++ []) =
      .ok c :=
  ⟨(C10_legacy_underflow 7 0 [] (by decide) (by decide) (by decide)).1 (by decide),
   (C10_legacy_underflow 7 20 [] (by decide) (by decide) (by decide)).2 (by decide)⟩

end DxvkCacheTool
